import Mathlib

/-!
# IncludeOS: TCP header helpers, socket keepalive/accept defaults, Virtio device-ID check

A shallow embedding of

* `api/net/tcp.hpp`: `TCP::Flag`, `TCP::tcp_header` (offset / size / flag accessors),
  `TCP::data_length`, `TCP::tcp_length`, `TCP::Socket::is_keepalive`, `TCP::Socket::drop`,
  `TCP::Socket::onAccept`, and the life of a `Socket` from its constructors on;
* `src/virtio/class_virtio.cpp`: the device-ID / revision-ID checks of `Virtio::Virtio`.

Machine integers are natural numbers with explicit reduction modulo `2 ^ w`.  The target of
IncludeOS is x86, so the memory image of the header is little-endian: in the union
`offs_flags` the byte `offs_res` is the low byte of `whole` and `flags` is the high byte.
-/

namespace net
namespace TCP

/-! ## Byte-order helpers -/

/-- Modelled from the spec: `htons` comes from `net/util.hpp`, which is not part of the
sources at hand; on the little-endian host it is the 16-bit byte swap.  The argument is
converted to `uint16_t` first. -/
def htons (x : Nat) : Nat :=
  (x % 256) * 256 + x / 256 % 256

/-- Modelled from the spec: `htonl` comes from `net/util.hpp`, which is not part of the
sources at hand; on the little-endian host it is the 32-bit byte swap.  The argument is
converted to `uint32_t` first. -/
def htonl (x : Nat) : Nat :=
  (x % 256) * 16777216 + (x / 256 % 256) * 65536 + (x / 65536 % 256) * 256
    + x / 16777216 % 256

/-- Modelled from the spec: `ntohl` reads a 32-bit value stored in network byte order; on the
little-endian host it is the same byte swap as `htonl`. -/
def ntohl (x : Nat) : Nat :=
  htonl x

/-! ## `enum Flag` -/

/-- The enumeration `TCP::Flag`. -/
inductive Flag where
  | NS
  | CWR
  | ECE
  | URG
  | ACK
  | PSH
  | RST
  | SYN
  | FIN
  deriving DecidableEq, Repr

/-- The enumerator values of `TCP::Flag`. -/
def Flag.val : Flag → Nat
  | .NS => 1 <<< 8
  | .CWR => 1 <<< 7
  | .ECE => 1 <<< 6
  | .URG => 1 <<< 5
  | .ACK => 1 <<< 4
  | .PSH => 1 <<< 3
  | .RST => 1 <<< 2
  | .SYN => 1 <<< 1
  | .FIN => 1

/-- All nine enumerators, in declaration order. -/
def Flag.all : List Flag :=
  [.NS, .CWR, .ECE, .URG, .ACK, .PSH, .RST, .SYN, .FIN]

/-! ## `struct tcp_header` -/

/-- The packed struct `TCP::tcp_header`.  Every field holds the value of the corresponding
C++ member as the host reads it; the union `offs_flags` is stored as its two bytes.  The
trailing `options[0]` has length zero and is not part of the struct. -/
structure tcp_header where
  sport : Nat
  dport : Nat
  seq_nr : Nat
  ack_nr : Nat
  offs_res : Nat
  flags : Nat
  win_size : Nat
  checksum : Nat
  urg_ptr : Nat
  deriving DecidableEq, Repr

/-- Every member lies in the range of its C++ type. -/
def tcp_header.wf (h : tcp_header) : Prop :=
  h.sport < 2 ^ 16 ∧ h.dport < 2 ^ 16 ∧ h.seq_nr < 2 ^ 32 ∧ h.ack_nr < 2 ^ 32 ∧
    h.offs_res < 2 ^ 8 ∧ h.flags < 2 ^ 8 ∧
    h.win_size < 2 ^ 16 ∧ h.checksum < 2 ^ 16 ∧ h.urg_ptr < 2 ^ 16

instance (h : tcp_header) : Decidable h.wf := by
  unfold tcp_header.wf; infer_instance

/-- Little-endian bytes of a 16-bit member. -/
def le16 (x : Nat) : List Nat :=
  [x % 256, x / 256 % 256]

/-- Little-endian bytes of a 32-bit member. -/
def le32 (x : Nat) : List Nat :=
  [x % 256, x / 256 % 256, x / 65536 % 256, x / 16777216 % 256]

/-- The memory image of the packed struct: the bytes of the header in wire order. -/
def tcp_header.bytes (h : tcp_header) : List Nat :=
  le16 h.sport ++ le16 h.dport ++ le32 h.seq_nr ++ le32 h.ack_nr ++
    [h.offs_res % 256, h.flags % 256] ++
    le16 h.win_size ++ le16 h.checksum ++ le16 h.urg_ptr

/-- Byte `i` of the header (zero past the end). -/
def tcp_header.byte (h : tcp_header) (i : Nat) : Nat :=
  h.bytes.getD i 0

/-- The union member `offs_flags.whole`: `offs_res` is its low byte and `flags` its high
byte. -/
def tcp_header.whole (h : tcp_header) : Nat :=
  h.offs_res + 256 * h.flags

/-- A store to `offs_flags.whole` (after conversion to `uint16_t`). -/
def tcp_header.set_whole (h : tcp_header) (w : Nat) : tcp_header :=
  { h with offs_res := w % 256, flags := w / 256 % 256 }

/-- `uint8_t offset(){ return (uint8_t)(offs_flags.offs_res >> 4); }` -/
def tcp_header.offset (h : tcp_header) : Nat :=
  (h.offs_res >>> 4) % 256

/-- `void set_offset(uint8_t offset){ offs_flags.offs_res = (offset << 4); }` -/
def tcp_header.set_offset (h : tcp_header) (offset : Nat) : tcp_header :=
  { h with offs_res := ((offset % 256) <<< 4) % 256 }

/-- `uint8_t size(){ return offset() * 4; }` -/
def tcp_header.size (h : tcp_header) : Nat :=
  (h.offset * 4) % 256

/-- The value of `sizeof(tcp_header)`: the packed fixed part, 20 bytes. -/
def sizeof_tcp_header : Nat :=
  2 + 2 + 4 + 4 + 2 + 2 + 2 + 2

/-- The value of `sizeof(full_header)` for the packed struct
`{ Ethernet::header eth_hdr; IP4::ip_header ip_hdr; tcp_header tcp_hdr; }`.  The two outer
header types are declared elsewhere, so their sizes are parameters. -/
def sizeof_full_header (eth_hdr ip_hdr : Nat) : Nat :=
  eth_hdr + ip_hdr + sizeof_tcp_header

/-- The body of `all_headers_len`:
`return (sizeof(full_header) - sizeof(tcp_header)) + size();`, converted to `uint8_t`. -/
def tcp_header.all_headers_len (eth_hdr ip_hdr : Nat) (h : tcp_header) : Nat :=
  ((sizeof_full_header eth_hdr ip_hdr - sizeof_tcp_header) + h.size) % 256

/-- The operand `~ x` of an `&` with a 16-bit value: `x` is promoted to a 32-bit `int`
before the complement is taken. -/
def compl32 (x : Nat) : Nat :=
  (2 ^ 32 - 1) - x % 2 ^ 32

/-- `void set_flag(Flag f){ offs_flags.whole |= htons(f); }` -/
def tcp_header.set_flag (h : tcp_header) (f : Flag) : tcp_header :=
  h.set_whole ((h.whole ||| htons f.val) % 65536)

/-- `void set_flags(uint16_t f){ offs_flags.whole |= htons(f); }` -/
def tcp_header.set_flags (h : tcp_header) (f : Nat) : tcp_header :=
  h.set_whole ((h.whole ||| htons (f % 65536)) % 65536)

/-- `void clear_flag(Flag f){ offs_flags.whole &= ~ htons(f); }` -/
def tcp_header.clear_flag (h : tcp_header) (f : Flag) : tcp_header :=
  h.set_whole ((h.whole &&& compl32 (htons f.val)) % 65536)

/-- `void clear_flags(){ offs_flags.whole &= 0x00ff; }` -/
def tcp_header.clear_flags (h : tcp_header) : tcp_header :=
  h.set_whole ((h.whole &&& 0x00ff) % 65536)

/-! ## Wire format (RFC 793 / RFC 3540) -/

/-- The header byte in which the TCP wire format places a flag: `NS` is in byte 12 (shared
with the data offset and the reserved bits), the other eight are in byte 13. -/
def wire_byte : Flag → Nat
  | .NS => 12
  | _ => 13

/-- The bit position inside `wire_byte` that the TCP wire format assigns to a flag. -/
def wire_bit : Flag → Nat
  | .NS => 0
  | .CWR => 7
  | .ECE => 6
  | .URG => 5
  | .ACK => 4
  | .PSH => 3
  | .RST => 2
  | .SYN => 1
  | .FIN => 0

/-- Bit `j` of byte `i` of the header. -/
def tcp_header.bit (h : tcp_header) (i j : Nat) : Bool :=
  (h.byte i).testBit j

/-- A flag is set in a header when its wire-format bit is one. -/
def tcp_header.isset (h : tcp_header) (f : Flag) : Bool :=
  h.bit (wire_byte f) (wire_bit f)

/-! ## Packets -/

/-- What `TCP` reads of a `Packet`: its `size()` and the `tcp_header` that
`tcp_hdr(pckt)` finds in its buffer behind the link-layer and IPv4 headers. -/
structure Packet where
  size : Nat
  hdr : tcp_header
  deriving DecidableEq, Repr

/-- `tcp_header* tcp_hdr(Packet_ptr pckt)` -/
def tcp_hdr (pckt : Packet) : tcp_header :=
  pckt.hdr

/-- `uint16_t data_length(Packet_ptr pckt){ return pckt->size() - tcp_hdr(pckt)->all_headers_len(); }`
The difference is taken in the integers and converted to `uint16_t`. -/
def data_length (eth_hdr ip_hdr : Nat) (pckt : Packet) : Nat :=
  (((pckt.size : Int) - ((tcp_hdr pckt).all_headers_len eth_hdr ip_hdr : Int)) % 65536).toNat

/-- `uint16_t tcp_length(Packet_ptr pckt){ return data_length(pckt) + tcp_hdr(pckt)->size(); }` -/
def tcp_length (eth_hdr ip_hdr : Nat) (pckt : Packet) : Nat :=
  (data_length eth_hdr ip_hdr pckt + (tcp_hdr pckt).size) % 65536

/-! ## `class Socket` -/

/-- The enumeration `Socket::State`. -/
inductive State where
  | CLOSED
  | LISTEN
  | SYN_SENT
  | SYN_RECIEVED
  | ESTABLISHED
  | CLOSE_WAIT
  | LAST_ACK
  | FIN_WAIT1
  | FIN_WAIT2
  | CLOSING
  | TIME_WAIT
  deriving DecidableEq, Repr

/-- A value of `connection_handler = delegate<void(Socket&)>`: either the member function
`Socket::drop` bound to a socket, or a handler supplied by the application (named by a
tag). -/
inductive connection_handler where
  | from_drop
  | app (tag : Nat)
  deriving DecidableEq, Repr

/-- The data members of `TCP::Socket` that hold plain values. -/
structure Socket where
  backlog_ : Nat
  local_port_ : Nat
  remote_addr_ : Nat
  remote_port_ : Nat
  initial_seq_out_ : Nat
  initial_seq_in_ : Nat
  bytes_transmitted_ : Nat
  bytes_received_ : Nat
  state_ : State
  accept_handler_ : connection_handler
  ack_keepalive_ : Bool
  buffer_ : List Nat
  deriving DecidableEq, Repr

/-- The default member initialisers of `Socket`; the members without one are arguments. -/
def Socket.init (local_port remote_addr remote_port : Nat) : Socket :=
  { backlog_ := 1000
    local_port_ := local_port
    remote_addr_ := remote_addr
    remote_port_ := remote_port
    initial_seq_out_ := 42
    initial_seq_in_ := 0
    bytes_transmitted_ := 0
    bytes_received_ := 0
    state_ := State.CLOSED
    accept_handler_ := connection_handler.from_drop
    ack_keepalive_ := false
    buffer_ := [] }

/-- `void ack_keepalive(bool ack){ ack_keepalive_ = ack; }` -/
def Socket.ack_keepalive (s : Socket) (ack : Bool) : Socket :=
  { s with ack_keepalive_ := ack }

/-- `void drop(Socket&){ debug(...); }`: the body only logs.  The result is the receiver
and the socket passed by reference, as the call leaves them. -/
def Socket.drop (s : Socket) (c : Socket) : Socket × Socket :=
  (s, c)

/-- `void onAccept(connection_handler handler){ debug(...); accept_handler_ = handler; }` -/
def Socket.onAccept (s : Socket) (handler : connection_handler) : Socket :=
  { s with accept_handler_ := handler }

/-- The constructors that the header declares for `Socket`: the one for server sockets,
the one for connections, and the private one by which a listening socket creates its
connections and which takes a `connection_handler`.  Members that a constructor is not given
and that have no default member initialiser hold indeterminate values; these are arguments
too. -/
inductive Ctor where
  | server (local_port remote_addr remote_port : Nat)
  | connection (local_port : Nat) (state : State) (remote_addr remote_port : Nat)
  | accepted (local_port remote_ip remote_port : Nat) (state : State)
      (handler : connection_handler) (initial_seq_nr : Nat)
  deriving DecidableEq, Repr

/-- The handler a constructor is given, if it takes one. -/
def Ctor.handler : Ctor → Option connection_handler
  | .accepted _ _ _ _ handler _ => some handler
  | _ => none

/-- Modelled from the spec: the bodies of the three constructors are in a source file that is
not at hand.  Each constructor stores its arguments in the members they name (the initial
sequence number of an accepted connection is the inbound one, taken from the SYN) and
leaves every other member to its default member initialiser. -/
def Ctor.build : Ctor → Socket
  | .server local_port remote_addr remote_port => Socket.init local_port remote_addr remote_port
  | .connection local_port state remote_addr remote_port =>
      { Socket.init local_port remote_addr remote_port with state_ := state }
  | .accepted local_port remote_ip remote_port state handler initial_seq_nr =>
      { Socket.init local_port remote_ip remote_port with
        state_ := state
        accept_handler_ := handler
        initial_seq_in_ := initial_seq_nr % 2 ^ 32 }

/-- The member functions of `Socket` that the header only declares: their bodies are
outside the header. -/
inductive OutOfLine where
  | read (n : Int)
  | write (s : List Nat)
  | close
  | listen (backlog : Int)
  | bottom (pckt : Packet)
  | syn (addr port : Nat)
  | ack (pckt : Packet) (FLAGS : Nat)
  | fill (pckt : Packet)
  deriving DecidableEq, Repr

/-- The calls that can be made on a socket during its life: the members defined in the
header that change it, and the members defined outside it. -/
inductive SocketOp where
  | ack_keepalive (ack : Bool)
  | onAccept (handler : connection_handler)
  | drop (c : Socket)
  | out_of_line (m : OutOfLine)
  deriving DecidableEq, Repr

/-- Whether a call is a call of `onAccept`. -/
def SocketOp.is_onAccept : SocketOp → Bool
  | .onAccept _ => true
  | _ => false

/-- One call applied to a socket; `ext` gives the effect of the members defined outside the
header. -/
def SocketOp.run (ext : OutOfLine → Socket → Socket) (s : Socket) : SocketOp → Socket
  | .ack_keepalive ack => s.ack_keepalive ack
  | .onAccept handler => s.onAccept handler
  | .drop c => (s.drop c).1
  | .out_of_line m => ext m s

/-- A socket after its construction and a sequence of calls. -/
def lifetime (ext : OutOfLine → Socket → Socket) (ctor : Ctor) (ops : List SocketOp) :
    Socket :=
  ops.foldl (SocketOp.run ext) ctor.build

/-- Modelled from the spec: `TCP::connect(addr, port, handler)` is defined outside the
header; it creates a socket on the current ephemeral port, installs `handler` as its
callback and issues `syn`.  `TCP` has no access to the private constructor, so the handler
goes in through `onAccept`. -/
def connect (ext : OutOfLine → Socket → Socket) (current_ephemeral remote_ip remote_port : Nat)
    (handler : connection_handler) : Socket :=
  lifetime ext (Ctor.connection current_ephemeral State.CLOSED remote_ip remote_port)
    [SocketOp.onAccept handler, SocketOp.out_of_line (OutOfLine.syn remote_ip remote_port)]

/-- `bool is_keepalive(Packet_ptr pckt){
  return tcp_hdr(pckt)->seq_nr == htonl(initial_seq_in_ + bytes_received_ ); }` -/
def Socket.is_keepalive (s : Socket) (pckt : Packet) : Bool :=
  (tcp_hdr pckt).seq_nr == htonl ((s.initial_seq_in_ + s.bytes_received_) % 2 ^ 32)

end TCP
end net

/-! ## `Virtio::Virtio`: device discovery checks -/

namespace Virtio

/-- The member initialiser `_virtio_device_id(dev->product_id() + 0x1040)`.  The member is
declared in `class_virtio.hpp`; `w` is the width in bits of its unsigned type. -/
def _virtio_device_id (w : Nat) (product_id : Nat) : Nat :=
  (product_id + 0x1040) % 2 ^ w

/-- `bool _STD_ID = _virtio_device_id >= 0x1040 and _virtio_device_id < 0x107f;` -/
def _STD_ID (w : Nat) (product_id : Nat) : Bool :=
  decide (_virtio_device_id w product_id ≥ 0x1040) &&
    decide (_virtio_device_id w product_id < 0x107f)

/-- `bool _LEGACY_ID = product_id() >= 0x1000 and product_id() <= 0x103f;` -/
def _LEGACY_ID (product_id : Nat) : Bool :=
  decide (product_id ≥ 0x1000) && decide (product_id ≤ 0x103f)

/-- The range label printed by the constructor. -/
def range_label (w : Nat) (product_id : Nat) : String :=
  if _STD_ID w product_id then ">= Virtio 1.0"
  else if _LEGACY_ID product_id then "Virtio LEGACY" else "INVALID"

/-- `bool rev_id_ok = ((_LEGACY_ID and rev_id() == 0) or (_STD_ID and rev_id() > 0));` -/
def rev_id_ok (w : Nat) (product_id rev_id : Nat) : Bool :=
  (_LEGACY_ID product_id && rev_id == 0) || (_STD_ID w product_id && decide (rev_id > 0))

/-- How the discovery part of the constructor ends. -/
inductive Discovery where
  | panic_not_virtio
  | assert_id_failed
  | assert_rev_failed
  | passed
  deriving DecidableEq, Repr

/-- The discovery part of `Virtio::Virtio(PCI_Device* dev)`: the vendor test, then
`assert(_STD_ID or _LEGACY_ID)`, then `assert(rev_id_ok)`.  `VENDOR_VIRTIO` is the constant
`PCI_Device::VENDOR_VIRTIO`. -/
def discover ( VENDOR_VIRTIO w : Nat) (vendor_id product_id rev_id : Nat) : Discovery :=
  if vendor_id ≠ VENDOR_VIRTIO then .panic_not_virtio
  else if ¬ (_STD_ID w product_id || _LEGACY_ID product_id) then .assert_id_failed
  else if ¬ rev_id_ok w product_id rev_id then .assert_rev_failed
  else .passed

end Virtio

namespace IncludeOS

open net.TCP

/-! ## Supporting lemmas: header arithmetic -/


theorem offset_le (h : tcp_header) (hw : h.wf) : h.offset ≤ 15 := by
  obtain ⟨-, -, -, -, h8, -⟩ := hw
  simp only [tcp_header.offset, Nat.shiftRight_eq_div_pow]
  omega

theorem size_eq (h : tcp_header) (hw : h.wf) : h.size = 4 * h.offset := by
  have := offset_le h hw
  simp only [tcp_header.size]
  omega

theorem all_headers_len_eq (eth_hdr ip_hdr : Nat) (hL : eth_hdr + ip_hdr ≤ 195)
    (h : tcp_header) (hw : h.wf) :
    h.all_headers_len eth_hdr ip_hdr = eth_hdr + ip_hdr + h.size := by
  have h1 := offset_le h hw
  have h2 := size_eq h hw
  simp only [tcp_header.all_headers_len, sizeof_full_header, sizeof_tcp_header]
  omega

/-! ## C1: data-offset round trip -/

/-- C1: for every header `h` and every `k` with `0 ≤ k ≤ 15`, `offset()` after
`set_offset(k)` returns `k`; for a header with `n ≤ 10` option words, `set_offset(5 + n)`
followed by `offset()` gives `(20 + 4 n) / 4`. -/
theorem offset_set_offset (h : tcp_header) (k : Nat) (hk : k ≤ 15) :
    (h.set_offset k).offset = k ∧
      ∀ n, n ≤ 10 → (h.set_offset (5 + n)).offset = (20 + 4 * n) / 4 := by
  refine ⟨?_, fun n hn => ?_⟩ <;>
    simp only [tcp_header.offset, tcp_header.set_offset, Nat.shiftRight_eq_div_pow,
      Nat.shiftLeft_eq] <;> omega

/-- Instance of the round trip: `k = 7`, and `n = 10` option words. -/
theorem offset_set_offset_witness :
    ((tcp_header.mk 80 1024 7 9 0x50 0x12 512 0 0).set_offset 7).offset = 7 ∧
      ((tcp_header.mk 80 1024 7 9 0x50 0x12 512 0 0).set_offset (5 + 10)).offset
        = (20 + 4 * 10) / 4 :=
  ⟨(offset_set_offset (tcp_header.mk 80 1024 7 9 0x50 0x12 512 0 0) 7 (by decide)).1,
    (offset_set_offset (tcp_header.mk 80 1024 7 9 0x50 0x12 512 0 0) 7 (by decide)).2 10
      (by decide)⟩

/-! ## C2: header lengths in bytes -/

/-- C2: for every header `h`, `size()` is exactly `4 * offset()`, a multiple of 4 between 0
and 60; `all_headers_len()` is exactly the link-layer plus IPv4 header bytes plus `size()`
(no wrap-around modulo 256 as long as the two outer headers take at most 195 bytes), and with
a 14-byte Ethernet header and a 20-byte IPv4 header it is `34 + 4 * offset() ≤ 94`. -/
theorem header_lengths (eth_hdr ip_hdr : Nat) (hL : eth_hdr + ip_hdr ≤ 195)
    (h : tcp_header) (hw : h.wf) :
    h.size = 4 * h.offset ∧ h.size % 4 = 0 ∧ h.size ≤ 60 ∧
      h.all_headers_len eth_hdr ip_hdr = (eth_hdr + ip_hdr) + h.size ∧
      h.all_headers_len 14 20 = 34 + 4 * h.offset ∧ h.all_headers_len 14 20 ≤ 94 := by
  have h1 := offset_le h hw
  have h2 := size_eq h hw
  have h3 := all_headers_len_eq eth_hdr ip_hdr hL h hw
  have h4 := all_headers_len_eq 14 20 (by decide) h hw
  omega

/-- Instance with the largest data offset, 15: `size()` is 60 and `all_headers_len()` is 94. -/
theorem header_lengths_witness :
    (tcp_header.mk 80 1024 7 9 0xf1 0x12 512 0 0).size = 60 ∧
      (tcp_header.mk 80 1024 7 9 0xf1 0x12 512 0 0).all_headers_len 14 20 = 94 := by
  have h := header_lengths 14 20 (by decide) (tcp_header.mk 80 1024 7 9 0xf1 0x12 512 0 0)
    (by decide)
  have ho : (tcp_header.mk 80 1024 7 9 0xf1 0x12 512 0 0).offset = 15 := by decide
  rw [ho] at h
  exact ⟨h.1, h.2.2.2.2.1⟩

/-! ## C3: payload length -/

/-- C3: for every packet whose size is at least `all_headers_len()` of its TCP header and
below `2 ^ 16`, `data_length` is the packet size minus the link, IP and TCP header bytes,
without 16-bit wrap-around; a packet that consists of headers only has `data_length` 0. -/
theorem data_length_eq (eth_hdr ip_hdr : Nat) (hL : eth_hdr + ip_hdr ≤ 195)
    (pckt : Packet) (hw : (tcp_hdr pckt).wf)
    (hlo : (tcp_hdr pckt).all_headers_len eth_hdr ip_hdr ≤ pckt.size)
    (hhi : pckt.size < 2 ^ 16) :
    data_length eth_hdr ip_hdr pckt = pckt.size - (eth_hdr + ip_hdr + (tcp_hdr pckt).size) ∧
      data_length eth_hdr ip_hdr pckt + (eth_hdr + ip_hdr + (tcp_hdr pckt).size) = pckt.size ∧
      (pckt.size = (tcp_hdr pckt).all_headers_len eth_hdr ip_hdr →
        data_length eth_hdr ip_hdr pckt = 0) := by
  have h3 := all_headers_len_eq eth_hdr ip_hdr hL (tcp_hdr pckt) hw
  simp only [data_length]
  omega

/-- Instances: a 1500-byte packet with a 32-byte TCP header, and a headers-only packet. -/
theorem data_length_eq_witness :
    data_length 14 20 ⟨1500, tcp_header.mk 80 1024 7 9 0x80 0x12 512 0 0⟩ = 1500 - (14 + 20 + 32) ∧
      data_length 14 20 ⟨54, tcp_header.mk 80 1024 7 9 0x50 0x12 512 0 0⟩ = 0 :=
  ⟨(data_length_eq 14 20 (by decide) ⟨1500, tcp_header.mk 80 1024 7 9 0x80 0x12 512 0 0⟩
      (by decide) (by decide) (by decide)).1,
    (data_length_eq 14 20 (by decide) ⟨54, tcp_header.mk 80 1024 7 9 0x50 0x12 512 0 0⟩
      (by decide) (by decide) (by decide)).2.2 (by decide)⟩

/-! ## C4: segment length for the checksum -/

/-- C4: for every packet, `tcp_length` is `data_length` plus the TCP header size as 16-bit
values, and whenever the packet size is at least the link plus IP header bytes and below
`2 ^ 16` it equals the packet size minus the link plus IP header bytes, whatever the
data-offset field holds (also when `data_length` alone wraps). -/
theorem tcp_length_eq (eth_hdr ip_hdr : Nat) (hL : eth_hdr + ip_hdr ≤ 195)
    (pckt : Packet) (hw : (tcp_hdr pckt).wf) :
    tcp_length eth_hdr ip_hdr pckt
        = (data_length eth_hdr ip_hdr pckt + (tcp_hdr pckt).size) % 2 ^ 16 ∧
      (eth_hdr + ip_hdr ≤ pckt.size → pckt.size < 2 ^ 16 →
        tcp_length eth_hdr ip_hdr pckt = pckt.size - (eth_hdr + ip_hdr)) := by
  have h1 := offset_le (tcp_hdr pckt) hw
  have h2 := size_eq (tcp_hdr pckt) hw
  have h3 := all_headers_len_eq eth_hdr ip_hdr hL (tcp_hdr pckt) hw
  refine ⟨rfl, fun hlo hhi => ?_⟩
  simp only [tcp_length, data_length]
  omega

/-- Instance in which `data_length` wraps: 40 bytes with data offset 15. -/
theorem tcp_length_eq_witness :
    data_length 14 20 ⟨40, tcp_header.mk 80 1024 7 9 0xf0 0x12 512 0 0⟩ = 65482 ∧
      tcp_length 14 20 ⟨40, tcp_header.mk 80 1024 7 9 0xf0 0x12 512 0 0⟩ = 40 - (14 + 20) :=
  ⟨by decide,
    (tcp_length_eq 14 20 (by decide) ⟨40, tcp_header.mk 80 1024 7 9 0xf0 0x12 512 0 0⟩
      (by decide)).2 (by decide) (by decide)⟩

/-! ## Supporting lemmas: bytes and bits of the offset/flags field -/

theorem or_mod_two_pow (a b n : Nat) : (a ||| b) % 2 ^ n = a % 2 ^ n ||| b % 2 ^ n := by
  apply Nat.eq_of_testBit_eq
  intro i
  simp only [Nat.testBit_mod_two_pow, Nat.testBit_or]
  cases decide (i < n) <;> simp

theorem and_mod_two_pow (a b n : Nat) : (a &&& b) % 2 ^ n = a % 2 ^ n &&& b % 2 ^ n := by
  apply Nat.eq_of_testBit_eq
  intro i
  simp only [Nat.testBit_mod_two_pow, Nat.testBit_and]
  cases decide (i < n) <;> simp

theorem or_div_two_pow (a b n : Nat) : (a ||| b) / 2 ^ n = a / 2 ^ n ||| b / 2 ^ n := by
  apply Nat.eq_of_testBit_eq
  intro i
  simp only [← Nat.shiftRight_eq_div_pow, Nat.testBit_shiftRight, Nat.testBit_or]

theorem and_div_two_pow (a b n : Nat) : (a &&& b) / 2 ^ n = a / 2 ^ n &&& b / 2 ^ n := by
  apply Nat.eq_of_testBit_eq
  intro i
  simp only [← Nat.shiftRight_eq_div_pow, Nat.testBit_shiftRight, Nat.testBit_and]

/-- The low and the high byte of `whole`. -/
theorem whole_bytes (h : tcp_header) (h1 : h.offs_res < 256) (h2 : h.flags < 256) :
    h.whole % 256 = h.offs_res ∧ h.whole / 256 % 256 = h.flags := by
  simp only [tcp_header.whole]
  omega

/-- The mask `htons(f)` has exactly the wire-format bit of `f`: its low byte lands in header
byte 12 and its high byte in header byte 13. -/
theorem htons_flag (f : Flag) :
    htons f.val % 256 = (if wire_byte f = 12 then 2 ^ wire_bit f else 0) ∧
      htons f.val / 256 % 256 = (if wire_byte f = 13 then 2 ^ wire_bit f else 0) := by
  cases f <;> decide

theorem set_flag_bytes (h : tcp_header) (h1 : h.offs_res < 256) (h2 : h.flags < 256)
    (f : Flag) :
    h.set_flag f = { h with
      offs_res := h.offs_res ||| (if wire_byte f = 12 then 2 ^ wire_bit f else 0)
      flags := h.flags ||| (if wire_byte f = 13 then 2 ^ wire_bit f else 0) } := by
  obtain ⟨w1, w2⟩ := whole_bytes h h1 h2
  obtain ⟨m1, m2⟩ := htons_flag f
  have e1 : (h.whole ||| htons f.val) % 65536 % 256 = (h.whole ||| htons f.val) % 2 ^ 8 := by
    omega
  have e2 : (h.whole ||| htons f.val) % 65536 / 256 % 256
      = (h.whole ||| htons f.val) / 2 ^ 8 % 2 ^ 8 := by
    omega
  simp only [tcp_header.set_flag, tcp_header.set_whole, e1, e2, or_mod_two_pow,
    or_div_two_pow]
  norm_num only at w1 w2 m1 m2 ⊢
  rw [w1, w2, m1, m2]

theorem compl32_bytes (m : Nat) (hm : m < 65536) :
    compl32 m % 256 = 255 - m % 256 ∧ compl32 m / 256 % 256 = 255 - m / 256 % 256 := by
  simp only [compl32]
  omega

theorem htons_lt (x : Nat) : htons x < 65536 := by
  simp only [htons]
  omega

theorem clear_flag_bytes (h : tcp_header) (h1 : h.offs_res < 256) (h2 : h.flags < 256)
    (f : Flag) :
    h.clear_flag f = { h with
      offs_res := h.offs_res &&& (255 - (if wire_byte f = 12 then 2 ^ wire_bit f else 0))
      flags := h.flags &&& (255 - (if wire_byte f = 13 then 2 ^ wire_bit f else 0)) } := by
  obtain ⟨w1, w2⟩ := whole_bytes h h1 h2
  obtain ⟨m1, m2⟩ := htons_flag f
  obtain ⟨c1, c2⟩ := compl32_bytes (htons f.val) (htons_lt _)
  have e1 : (h.whole &&& compl32 (htons f.val)) % 65536 % 256
      = (h.whole &&& compl32 (htons f.val)) % 2 ^ 8 := by
    omega
  have e2 : (h.whole &&& compl32 (htons f.val)) % 65536 / 256 % 256
      = (h.whole &&& compl32 (htons f.val)) / 2 ^ 8 % 2 ^ 8 := by
    omega
  simp only [tcp_header.clear_flag, tcp_header.set_whole, e1, e2, and_mod_two_pow,
    and_div_two_pow]
  norm_num only at w1 w2 m1 m2 c1 c2 ⊢
  rw [w1, w2, c1, c2, m1, m2]

theorem clear_flags_bytes (h : tcp_header) (h1 : h.offs_res < 256) (h2 : h.flags < 256) :
    h.clear_flags = { h with flags := 0 } := by
  obtain ⟨w1, w2⟩ := whole_bytes h h1 h2
  have e : h.whole &&& 0x00ff = h.whole % 2 ^ 8 := Nat.and_pow_two_sub_one_eq_mod h.whole 8
  have f1 : (h.whole &&& 0x00ff) % 65536 % 256 = h.offs_res := by
    rw [e]
    omega
  have f2 : (h.whole &&& 0x00ff) % 65536 / 256 % 256 = 0 := by
    rw [e]
    omega
  simp only [tcp_header.clear_flags, tcp_header.set_whole, f1, f2]

theorem testBit_255_sub (x : Nat) (hx : x < 256) (j : Nat) :
    (255 - x).testBit j = (decide (j < 8) && !x.testBit j) := by
  have h := Nat.testBit_two_pow_sub_succ (n := 8) (x := x) (by omega) j
  have e : 2 ^ 8 - (x + 1) = 255 - x := by omega
  rw [e] at h
  exact h

theorem byte_12 (h : tcp_header) : h.byte 12 = h.offs_res % 256 := rfl

theorem byte_13 (h : tcp_header) : h.byte 13 = h.flags % 256 := rfl

theorem byte_other (h : tcp_header) (a b i : Nat) (h12 : i ≠ 12) (h13 : i ≠ 13) :
    tcp_header.byte { h with offs_res := a, flags := b } i = h.byte i := by
  by_cases hi : i < 20
  · interval_cases i <;> first | rfl | omega
  · simp only [tcp_header.byte, tcp_header.bytes, le16, le32]
    rw [List.getD_eq_default, List.getD_eq_default] <;> simp <;> omega

theorem bit_12 (h : tcp_header) (j : Nat) :
    h.bit 12 j = (decide (j < 8) && h.offs_res.testBit j) := by
  have e : h.byte 12 = h.offs_res % 2 ^ 8 := rfl
  rw [tcp_header.bit, e, Nat.testBit_mod_two_pow]

theorem bit_13 (h : tcp_header) (j : Nat) :
    h.bit 13 j = (decide (j < 8) && h.flags.testBit j) := by
  have e : h.byte 13 = h.flags % 2 ^ 8 := rfl
  rw [tcp_header.bit, e, Nat.testBit_mod_two_pow]

theorem bit_other (h : tcp_header) (a b i j : Nat) (h12 : i ≠ 12) (h13 : i ≠ 13) :
    tcp_header.bit { h with offs_res := a, flags := b } i j = h.bit i j := by
  rw [tcp_header.bit, tcp_header.bit, byte_other h a b i h12 h13]

theorem wire_distinct (g f : Flag) (hne : g ≠ f) :
    (wire_byte g, wire_bit g) ≠ (wire_byte f, wire_bit f) := by
  cases g <;> cases f <;> first | exact absurd rfl hne | decide

theorem wire_cases (f : Flag) :
    (wire_byte f = 12 ∧ wire_bit f = 0) ∨ (wire_byte f = 13 ∧ wire_bit f < 8) := by
  cases f <;> decide

/-- Effect of or-ing one bit into header byte 12 or 13. -/
theorem bit_set_flag (h : tcp_header) (hw : h.wf) (f : Flag) (i j : Nat) :
    (h.set_flag f).bit i j
      = (h.bit i j || (decide (i = wire_byte f) && decide (j = wire_bit f))) := by
  obtain ⟨-, -, -, -, h1, h2, -⟩ := hw
  rw [set_flag_bytes h h1 h2 f]
  by_cases h12 : i = 12
  · subst h12
    rcases wire_cases f with ⟨hb, hk⟩ | ⟨hb, hk⟩
    · have e : Nat.testBit 1 j = decide (0 = j) := Nat.testBit_two_pow (n := 0)
      simp only [bit_12, hb, hk, Nat.testBit_or, if_true, pow_zero, e]
      by_cases hj : j = 0
      · subst hj
        simp
      · have hj2 : ¬ 0 = j := fun h0 => hj h0.symm
        simp [hj, hj2]
    · simp [bit_12, hb, hk, Nat.testBit_or]
  · by_cases h13 : i = 13
    · subst h13
      rcases wire_cases f with ⟨hb, hk⟩ | ⟨hb, hk⟩
      · simp [bit_13, hb, hk, Nat.testBit_or]
      · simp only [bit_13, hb, Nat.testBit_or, if_true, Nat.testBit_two_pow]
        by_cases hj : j = wire_bit f
        · subst hj
          simp [hk]
        · have hj2 : ¬ wire_bit f = j := fun h0 => hj h0.symm
          simp [hj, hj2]
    · rw [bit_other h _ _ i j h12 h13]
      rcases wire_cases f with ⟨hb, hk⟩ | ⟨hb, hk⟩ <;> simp [hb, h12, h13]

theorem offset_upd (h : tcp_header) (a b : Nat) (ha : a / 16 = h.offs_res / 16) :
    tcp_header.offset { h with offs_res := a, flags := b } = h.offset := by
  simp only [tcp_header.offset, Nat.shiftRight_eq_div_pow]
  norm_num only
  rw [ha]

theorem or_one_div (a : Nat) : (a ||| 1) / 16 = a / 16 := by
  have h := or_div_two_pow a 1 4
  norm_num only at h
  simpa using h

theorem and_254_div (a : Nat) (ha : a < 256) : (a &&& (255 - 1)) / 16 = a / 16 := by
  have h := and_div_two_pow a 254 4
  have e : a / 2 ^ 4 &&& 254 / 2 ^ 4 = a / 2 ^ 4 % 2 ^ 4 :=
    Nat.and_pow_two_sub_one_eq_mod (a / 2 ^ 4) 4
  rw [e] at h
  norm_num only at h ⊢
  omega

theorem and_255 (a : Nat) (ha : a < 256) : a &&& 255 = a := by
  have e : a &&& 255 = a % 2 ^ 8 := Nat.and_pow_two_sub_one_eq_mod a 8
  rw [e]
  omega

theorem band_absorb (p q : Bool) : (p && (q && p)) = (p && q) := by
  cases p <;> cases q <;> rfl

/-- Effect of masking one bit out of header byte 12 or 13. -/
theorem bit_clear_flag (h : tcp_header) (hw : h.wf) (f : Flag) (i j : Nat) :
    (h.clear_flag f).bit i j
      = (h.bit i j && !(decide (i = wire_byte f) && decide (j = wire_bit f))) := by
  obtain ⟨-, -, -, -, h1, h2, -⟩ := hw
  rw [clear_flag_bytes h h1 h2 f]
  by_cases h12 : i = 12
  · subst h12
    rcases wire_cases f with ⟨hb, hk⟩ | ⟨hb, hk⟩
    · have e : Nat.testBit 1 j = decide (0 = j) := Nat.testBit_two_pow (n := 0)
      simp only [bit_12, hb, hk, Nat.testBit_and, if_true, pow_zero,
        testBit_255_sub 1 (by decide), e]
      by_cases hj : j = 0
      · subst hj
        simp
      · have hj2 : ¬ 0 = j := fun h0 => hj h0.symm
        simp [hj, hj2, band_absorb]
    · simp [bit_12, hb, hk, Nat.testBit_and, testBit_255_sub 0 (by decide), band_absorb]
  · by_cases h13 : i = 13
    · subst h13
      rcases wire_cases f with ⟨hb, hk⟩ | ⟨hb, hk⟩
      · simp [bit_13, hb, hk, Nat.testBit_and, testBit_255_sub 0 (by decide), band_absorb]
      · have hp : 2 ^ wire_bit f < 256 :=
          Nat.pow_lt_pow_right (by decide) hk
        simp only [bit_13, hb, Nat.testBit_and, if_true, testBit_255_sub _ hp,
          Nat.testBit_two_pow]
        by_cases hj : j = wire_bit f
        · subst hj
          simp [hk]
        · have hj2 : ¬ wire_bit f = j := fun h0 => hj h0.symm
          simp [hj, hj2, band_absorb]
    · rw [bit_other h _ _ i j h12 h13]
      rcases wire_cases f with ⟨hb, hk⟩ | ⟨hb, hk⟩ <;> simp [hb, h12, h13]

theorem or_and_compl (a m : Nat) (ha : a < 256) (hm : m < 256) (hd : a &&& m = 0) :
    (a ||| m) &&& (255 - m) = a := by
  apply Nat.eq_of_testBit_eq
  intro j
  have hj := congrArg (fun x => Nat.testBit x j) hd
  simp only [Nat.testBit_and, Nat.zero_testBit] at hj
  rw [Nat.testBit_and, Nat.testBit_or, testBit_255_sub m hm j]
  by_cases h8 : j < 8
  · cases ha' : a.testBit j <;> cases hm' : m.testBit j <;> simp_all
  · have : a.testBit j = false :=
      Nat.testBit_lt_two_pow (Nat.lt_of_lt_of_le ha
        (Nat.pow_le_pow_right (n := 2) (by decide) (by omega : 8 ≤ j)))
    simp [h8, this]

theorem and_two_pow_eq_zero (a k : Nat) (hk : a.testBit k = false) : a &&& 2 ^ k = 0 := by
  apply Nat.eq_of_testBit_eq
  intro j
  rw [Nat.testBit_and, Nat.testBit_two_pow, Nat.zero_testBit]
  by_cases hj : k = j
  · subst hj
    simp [hk]
  · simp [hj]

theorem offset_set_flag (h : tcp_header) (hw : h.wf) (f : Flag) :
    (h.set_flag f).offset = h.offset := by
  obtain ⟨-, -, -, -, h1, h2, -⟩ := hw
  rw [set_flag_bytes h h1 h2 f]
  apply offset_upd
  rcases wire_cases f with ⟨hb, hk⟩ | ⟨hb, hk⟩
  · simp only [hb, hk, if_true, pow_zero]
    exact or_one_div _
  · simp [hb]

theorem set_flag_wf (h : tcp_header) (hw : h.wf) (f : Flag) : (h.set_flag f).wf := by
  obtain ⟨a1, a2, a3, a4, a5, a6, a7, a8, a9⟩ := hw
  refine ⟨a1, a2, a3, a4, ?_, ?_, a7, a8, a9⟩
  · exact Nat.mod_lt _ (by decide)
  · exact Nat.mod_lt _ (by decide)

/-! ## C5: flag packing -/

/-- C5: on the little-endian host, for every header `h` and each of the nine flags `f`,
`set_flag(f)` sets the bit that the TCP wire format assigns to `f`, leaves every other bit
of the header (so every other flag bit) unchanged and leaves `offset()` unchanged; the nine
flags occupy nine pairwise distinct bits. -/
theorem set_flag_wire_format (h : tcp_header) (hw : h.wf) (f : Flag) :
    (h.set_flag f).isset f = true ∧
      (∀ i j, (i, j) ≠ (wire_byte f, wire_bit f) → (h.set_flag f).bit i j = h.bit i j) ∧
      (∀ g, g ≠ f → (h.set_flag f).isset g = h.isset g) ∧
      (h.set_flag f).offset = h.offset ∧
      (∀ g, g ≠ f → (wire_byte g, wire_bit g) ≠ (wire_byte f, wire_bit f)) ∧
      Flag.all.length = 9 ∧ (Flag.all.map (fun g => (wire_byte g, wire_bit g))).Nodup := by
  have hother : ∀ i j, (i, j) ≠ (wire_byte f, wire_bit f) →
      (h.set_flag f).bit i j = h.bit i j := by
    intro i j hne
    rw [bit_set_flag h hw f i j]
    by_cases hi : i = wire_byte f
    · by_cases hj : j = wire_bit f
      · exact absurd (by rw [hi, hj]) hne
      · simp [hj]
    · simp [hi]
  refine ⟨?_, hother, ?_, offset_set_flag h hw f, fun g hg => wire_distinct g f hg, rfl,
    by decide⟩
  · simp [tcp_header.isset, bit_set_flag h hw f]
  · intro g hg
    exact hother _ _ (wire_distinct g f hg)

/-- Instance: `set_flag(SYN)` on a header with `ACK` set. -/
theorem set_flag_wire_format_witness :
    ((tcp_header.mk 80 1024 7 9 0x50 0x10 512 0 0).set_flag Flag.SYN).isset Flag.SYN = true ∧
      ((tcp_header.mk 80 1024 7 9 0x50 0x10 512 0 0).set_flag Flag.SYN).isset Flag.ACK
        = (tcp_header.mk 80 1024 7 9 0x50 0x10 512 0 0).isset Flag.ACK ∧
      ((tcp_header.mk 80 1024 7 9 0x50 0x10 512 0 0).set_flag Flag.SYN).offset
        = (tcp_header.mk 80 1024 7 9 0x50 0x10 512 0 0).offset :=
  ⟨(set_flag_wire_format (tcp_header.mk 80 1024 7 9 0x50 0x10 512 0 0) (by decide)
      Flag.SYN).1,
    (set_flag_wire_format (tcp_header.mk 80 1024 7 9 0x50 0x10 512 0 0) (by decide)
      Flag.SYN).2.2.1 Flag.ACK (by decide),
    (set_flag_wire_format (tcp_header.mk 80 1024 7 9 0x50 0x10 512 0 0) (by decide)
      Flag.SYN).2.2.2.1⟩

/-! ## C8: `clear_flag` undoes `set_flag` -/

theorem mask_lt (f : Flag) (b : Nat) :
    (if wire_byte f = b then 2 ^ wire_bit f else 0) < 256 := by
  cases f <;> simp only [wire_byte, wire_bit] <;> split <;> decide

theorem isset_mask (h : tcp_header) (f : Flag) (hf : h.isset f = false) :
    h.offs_res &&& (if wire_byte f = 12 then 2 ^ wire_bit f else 0) = 0 ∧
      h.flags &&& (if wire_byte f = 13 then 2 ^ wire_bit f else 0) = 0 := by
  rcases wire_cases f with ⟨hb, hk⟩ | ⟨hb, hk⟩
  · simp only [tcp_header.isset, hb, hk, bit_12] at hf
    simp only [hb, hk, if_true]
    refine ⟨and_two_pow_eq_zero _ _ (by simpa using hf), by simp⟩
  · simp only [tcp_header.isset, hb, bit_13] at hf
    simp only [hb, if_true]
    refine ⟨by simp, and_two_pow_eq_zero _ _ (by simpa [hk] using hf)⟩

/-- C8: for every header `h` and every flag `f` that is not set in `h`, `clear_flag(f)`
after `set_flag(f)` gives back `h` bit for bit; `set_flag(f)` is idempotent; and for every
`h`, `clear_flag(f)` leaves `f` unset and every other bit of the header (the offset/flags
field included) unchanged. -/
theorem clear_flag_set_flag (h : tcp_header) (hw : h.wf) (f : Flag) :
    (h.isset f = false → (h.set_flag f).clear_flag f = h) ∧
      (h.set_flag f).set_flag f = h.set_flag f ∧
      (h.clear_flag f).isset f = false ∧
      (∀ i j, (i, j) ≠ (wire_byte f, wire_bit f) → (h.clear_flag f).bit i j = h.bit i j) := by
  have hw2 := set_flag_wf h hw f
  obtain ⟨-, -, -, -, h1, h2, -⟩ := id hw
  obtain ⟨-, -, -, -, k1, k2, -⟩ := hw2
  refine ⟨fun hf => ?_, ?_, ?_, ?_⟩
  · obtain ⟨d1, d2⟩ := isset_mask h f hf
    rw [clear_flag_bytes _ k1 k2 f, set_flag_bytes h h1 h2 f]
    simp only [or_and_compl _ _ h1 (mask_lt f 12) d1, or_and_compl _ _ h2 (mask_lt f 13) d2]
  · rw [set_flag_bytes _ k1 k2 f, set_flag_bytes h h1 h2 f]
    simp only [Nat.or_assoc, Nat.or_self]
  · simp [tcp_header.isset, bit_clear_flag h hw f]
  · intro i j hne
    rw [bit_clear_flag h hw f i j]
    by_cases hi : i = wire_byte f
    · by_cases hj : j = wire_bit f
      · exact absurd (by rw [hi, hj]) hne
      · simp [hj]
    · simp [hi]

/-- Instance: `NS` set and cleared again on a header with data offset 5. -/
theorem clear_flag_set_flag_witness :
    ((tcp_header.mk 80 1024 7 9 0x50 0x10 512 0 0).set_flag Flag.NS).clear_flag Flag.NS
        = tcp_header.mk 80 1024 7 9 0x50 0x10 512 0 0 ∧
      ((tcp_header.mk 80 1024 7 9 0x50 0x10 512 0 0).clear_flag Flag.NS).isset Flag.NS
        = false :=
  ⟨(clear_flag_set_flag (tcp_header.mk 80 1024 7 9 0x50 0x10 512 0 0) (by decide)
      Flag.NS).1 (by decide),
    (clear_flag_set_flag (tcp_header.mk 80 1024 7 9 0x50 0x10 512 0 0) (by decide)
      Flag.NS).2.2.1⟩

/-! ## C9: `clear_flags` -/

/-- What `clear_flags()` does to a header: the byte `flags` becomes zero and nothing else
changes, so the eight flags `CWR` .. `FIN` are unset afterwards, `offset()` is unchanged,
and `NS` (bit 0 of `offs_res`) keeps its value. -/
theorem clear_flags_effect (h : tcp_header) (hw : h.wf) :
    h.clear_flags = { h with flags := 0 } ∧
      (∀ f, f ≠ Flag.NS → h.clear_flags.isset f = false) ∧
      h.clear_flags.offset = h.offset ∧
      h.clear_flags.isset Flag.NS = h.isset Flag.NS := by
  obtain ⟨-, -, -, -, h1, h2, -⟩ := id hw
  have e := clear_flags_bytes h h1 h2
  refine ⟨e, ?_, ?_, ?_⟩
  · intro f hf
    rw [e]
    cases f <;> first | exact absurd rfl hf | simp [tcp_header.isset, wire_byte, bit_13]
  · rw [e]
    rfl
  · rw [e]
    rfl

/-- C9 fails on the code: a header with data offset 5 and `NS` set (`offs_res = 0x51`) still
has `NS` set after `clear_flags()`, while `clear_flag(NS)` does clear it; the mask `0x00ff`
keeps the whole byte `offs_res`, bit 0 included. -/
theorem clear_flags_keeps_NS :
    (tcp_header.mk 80 1024 7 9 0x51 0x12 512 0 0).wf ∧
      (tcp_header.mk 80 1024 7 9 0x51 0x12 512 0 0).isset Flag.NS = true ∧
      (tcp_header.mk 80 1024 7 9 0x51 0x12 512 0 0).clear_flags
        = tcp_header.mk 80 1024 7 9 0x51 0x00 512 0 0 ∧
      (tcp_header.mk 80 1024 7 9 0x51 0x12 512 0 0).clear_flags.isset Flag.NS = true ∧
      ((tcp_header.mk 80 1024 7 9 0x51 0x12 512 0 0).clear_flag Flag.NS).isset Flag.NS
        = false := by
  decide

/-! ## C6: keepalive detection -/

theorem htonl_lt (x : Nat) : htonl x < 2 ^ 32 := by
  simp only [htonl]
  omega

theorem htonl_bytes (a b c d : Nat) (ha : a < 256) (hb : b < 256) (hc : c < 256)
    (hd : d < 256) :
    htonl (a + 256 * b + 65536 * c + 16777216 * d)
      = d + 256 * c + 65536 * b + 16777216 * a := by
  simp only [htonl]
  omega

theorem htonl_htonl (x : Nat) (hx : x < 2 ^ 32) : htonl (htonl x) = x := by
  have e : x = x % 256 + 256 * (x / 256 % 256) + 65536 * (x / 65536 % 256)
      + 16777216 * (x / 16777216 % 256) := by
    omega
  have ha : x % 256 < 256 := Nat.mod_lt _ (by decide)
  have hb : x / 256 % 256 < 256 := Nat.mod_lt _ (by decide)
  have hc : x / 65536 % 256 < 256 := Nat.mod_lt _ (by decide)
  have hd : x / 16777216 % 256 < 256 := Nat.mod_lt _ (by decide)
  generalize x % 256 = a at e ha
  generalize x / 256 % 256 = b at e hb
  generalize x / 65536 % 256 = c at e hc
  generalize x / 16777216 % 256 = d at e hd
  rw [e, htonl_bytes a b c d ha hb hc hd, htonl_bytes d c b a hd hc hb ha]

/-- C6 as stated fails: a segment of 100 bytes with a 20-byte TCP header carries 46 bytes of
payload, its sequence number equals the next expected byte, and `is_keepalive` is true
although the segment is not zero-length. -/
theorem is_keepalive_not_zero_length :
    ¬ ((Socket.init 80 0x0a000001 1024).is_keepalive
          ⟨100, tcp_header.mk 1024 80 0 9 0x50 0x10 512 0 0⟩ = true ↔
        (ntohl (tcp_hdr ⟨100, tcp_header.mk 1024 80 0 9 0x50 0x10 512 0 0⟩).seq_nr
            = ((Socket.init 80 0x0a000001 1024).initial_seq_in_
                + (Socket.init 80 0x0a000001 1024).bytes_received_) % 2 ^ 32 ∧
          data_length 14 20 ⟨100, tcp_header.mk 1024 80 0 9 0x50 0x10 512 0 0⟩ = 0)) := by
  decide

/-- C6 amended: for every socket and every inbound segment, `is_keepalive(pckt)` is true if
and only if the segment's sequence number, read from network byte order, equals the next
expected byte `initial_seq_in_ + bytes_received_` modulo `2 ^ 32`; the size of the packet
plays no part in the answer. -/
theorem is_keepalive_iff (s : Socket) (pckt : Packet) (hw : (tcp_hdr pckt).wf) :
    (s.is_keepalive pckt = true ↔
        ntohl (tcp_hdr pckt).seq_nr = (s.initial_seq_in_ + s.bytes_received_) % 2 ^ 32) ∧
      ∀ n, s.is_keepalive { pckt with size := n } = s.is_keepalive pckt := by
  obtain ⟨-, -, h32, -⟩ := hw
  refine ⟨?_, fun n => rfl⟩
  have hm : (s.initial_seq_in_ + s.bytes_received_) % 2 ^ 32 < 2 ^ 32 :=
    Nat.mod_lt _ (by decide)
  simp only [Socket.is_keepalive, ntohl, beq_iff_eq]
  constructor
  · intro h
    rw [h, htonl_htonl _ hm]
  · intro h
    rw [← h, htonl_htonl _ h32]

/-- Instance: the expected sequence number, with and without payload. -/
theorem is_keepalive_iff_witness :
    (Socket.init 80 0x0a000001 1024).is_keepalive
        ⟨100, tcp_header.mk 1024 80 0 9 0x50 0x10 512 0 0⟩ = true ∧
      (Socket.init 80 0x0a000001 1024).is_keepalive
        ⟨54, tcp_header.mk 1024 80 0 9 0x50 0x10 512 0 0⟩ = true :=
  ⟨(is_keepalive_iff (Socket.init 80 0x0a000001 1024)
      ⟨100, tcp_header.mk 1024 80 0 9 0x50 0x10 512 0 0⟩ (by decide)).1.2 (by decide),
    ((is_keepalive_iff (Socket.init 80 0x0a000001 1024)
      ⟨100, tcp_header.mk 1024 80 0 9 0x50 0x10 512 0 0⟩ (by decide)).2 54).trans
      ((is_keepalive_iff (Socket.init 80 0x0a000001 1024)
        ⟨100, tcp_header.mk 1024 80 0 9 0x50 0x10 512 0 0⟩ (by decide)).1.2 (by decide))⟩

/-! ## C7: default accept handler -/

/-- Calls other than `onAccept` keep the accept handler, as long as the members defined
outside the header do not assign it. -/
theorem run_accept_handler (ext : OutOfLine → Socket → Socket)
    (hext : ∀ m s, (ext m s).accept_handler_ = s.accept_handler_)
    (s : Socket) (op : SocketOp) (hop : op.is_onAccept = false) :
    (SocketOp.run ext s op).accept_handler_ = s.accept_handler_ := by
  cases op with
  | ack_keepalive ack => rfl
  | onAccept handler => cases hop
  | drop c => rfl
  | out_of_line m => exact hext m s

theorem foldl_accept_handler (ext : OutOfLine → Socket → Socket)
    (hext : ∀ m s, (ext m s).accept_handler_ = s.accept_handler_)
    (ops : List SocketOp) (hops : ∀ op ∈ ops, op.is_onAccept = false) (s : Socket) :
    (ops.foldl (SocketOp.run ext) s).accept_handler_ = s.accept_handler_ := by
  induction ops generalizing s with
  | nil => rfl
  | cons op ops ih =>
    rw [List.foldl_cons, ih (fun o ho => hops o (List.mem_cons_of_mem _ ho))]
    exact run_accept_handler ext hext s op (hops op (List.mem_cons_self _ _))

/-- The handler that `onAccept` installs is the accept handler afterwards, whatever it was
before, and it stays through later calls other than `onAccept`; so does the handler given
to `connect`. -/
theorem onAccept_installs (ext : OutOfLine → Socket → Socket)
    (hext : ∀ m s, (ext m s).accept_handler_ = s.accept_handler_)
    (ctor : Ctor) (before after : List SocketOp) (handler : connection_handler)
    (hafter : ∀ op ∈ after, op.is_onAccept = false)
    (current_ephemeral remote_ip remote_port : Nat) :
    (lifetime ext ctor (before ++ SocketOp.onAccept handler :: after)).accept_handler_
        = handler ∧
      (connect ext current_ephemeral remote_ip remote_port handler).accept_handler_
        = handler := by
  constructor
  · simp only [lifetime, List.foldl_append, List.foldl_cons]
    rw [foldl_accept_handler ext hext after hafter]
    rfl
  · simp only [connect, lifetime, List.foldl_cons, List.foldl_nil]
    rw [run_accept_handler ext hext _
      (SocketOp.out_of_line (OutOfLine.syn remote_ip remote_port)) rfl]
    rfl

theorem STD_ID_iff (w : Nat) (hw : 16 ≤ w) (p : Nat) (hp : p < 2 ^ 16) :
    Virtio._STD_ID w p = true ↔ p < 0x3f := by
  have hM : 2 ^ 16 ≤ 2 ^ w := Nat.pow_le_pow_right (by decide) hw
  simp only [Virtio._STD_ID, Virtio._virtio_device_id, Bool.and_eq_true, decide_eq_true_eq]
  generalize 2 ^ w = M at hM
  rcases Nat.lt_or_ge (p + 0x1040) M with h | h
  · rw [Nat.mod_eq_of_lt h]
    omega
  · have h2 : p + 0x1040 - M < M := by omega
    rw [Nat.mod_eq_sub_mod h, Nat.mod_eq_of_lt h2]
    omega

/-- What the discovery checks of the constructor compute, for a device with the Virtio
vendor id, a 16-bit product id `p` and a revision id `r`: `_STD_ID` (`p + 0x1040` in
`[0x1040, 0x107f)`) and `_LEGACY_ID` (`p` in `[0x1000, 0x103f]`) exclude each other, and
both assertions hold if and only if `p` is in `0x1000..0x103f` with `r = 0`, or `p + 0x1040`
is in `0x1040..0x107e` with `r > 0`. -/
theorem discover_passed_iff ( VENDOR_VIRTIO w : Nat) (hw : 16 ≤ w) (p r : Nat)
    (hp : p < 2 ^ 16) :
    ¬ (Virtio._STD_ID w p = true ∧ Virtio._LEGACY_ID p = true) ∧
      (Virtio.discover VENDOR_VIRTIO w VENDOR_VIRTIO p r = Virtio.Discovery.passed ↔
        (0x1000 ≤ p ∧ p ≤ 0x103f ∧ r = 0) ∨
          (0x1040 ≤ p + 0x1040 ∧ p + 0x1040 ≤ 0x107e ∧ r > 0)) := by
  have hs := STD_ID_iff w hw p hp
  have hl : Virtio._LEGACY_ID p = true ↔ 0x1000 ≤ p ∧ p ≤ 0x103f := by
    simp [Virtio._LEGACY_ID]
  constructor
  · rw [hs, hl]
    omega
  · by_cases hS : Virtio._STD_ID w p = true
    · have hS2 := hs.mp hS
      have hL : Virtio._LEGACY_ID p = false := by
        cases hL' : Virtio._LEGACY_ID p
        · rfl
        · have := hl.mp hL'
          omega
      by_cases hr : r = 0
      · simp [Virtio.discover, Virtio.rev_id_ok, hS, hL, hr]
        omega
      · have hr2 : 0 < r := Nat.pos_of_ne_zero hr
        simp [Virtio.discover, Virtio.rev_id_ok, hS, hL, hr, hr2]
        omega
    · have hS2 : ¬ p < 0x3f := fun h => hS (hs.mpr h)
      have hS3 : Virtio._STD_ID w p = false := by simpa using hS
      by_cases hL : Virtio._LEGACY_ID p = true
      · have hL2 := hl.mp hL
        by_cases hr : r = 0
        · simp [Virtio.discover, Virtio.rev_id_ok, hS3, hL, hr]
          omega
        · simp [Virtio.discover, Virtio.rev_id_ok, hS3, hL, hr]
          omega
      · have hL3 : Virtio._LEGACY_ID p = false := by simpa using hL
        have hL2 : ¬ (0x1000 ≤ p ∧ p ≤ 0x103f) := fun h => hL (hl.mpr h)
        simp [Virtio.discover, hS3, hL3]
        omega

/-- C10 fails on the code: a Virtio 1.0 network device has PCI device id `0x1041` and a
revision id of 1; the constructor adds `0x1040` to the product id before comparing with the
range `0x1040..0x107e`, so the device is labelled `INVALID` and the first assertion fails,
for a 16-bit as for a 32-bit `_virtio_device_id`. -/
theorem virtio_1_0_device_rejected :
    Virtio._STD_ID 16 0x1041 = false ∧ Virtio._STD_ID 32 0x1041 = false ∧
      Virtio._LEGACY_ID 0x1041 = false ∧
      Virtio.range_label 16 0x1041 = "INVALID" ∧ Virtio.range_label 32 0x1041 = "INVALID" ∧
      Virtio.discover 0x1af4 16 0x1af4 0x1041 1 = Virtio.Discovery.assert_id_failed ∧
      Virtio.discover 0x1af4 32 0x1af4 0x1041 1 = Virtio.Discovery.assert_id_failed ∧
      Virtio.range_label 16 0x0001 = ">= Virtio 1.0" ∧
      Virtio.discover 0x1af4 16 0x1af4 0x0001 1 = Virtio.Discovery.passed := by
  decide

end IncludeOS
